import Mathlib

/-!
Verification of the Pinpoint word-game core logic (`js/game.js`).

JavaScript strings are modelled as lists of Unicode code points (`List Nat`).
`String.prototype.toLowerCase` is modelled by the ASCII simple case mapping
(code points 65–90 map to 97–122); `String.prototype.trim` drops the
ECMAScript WhiteSpace / LineTerminator code points from both ends.
The global `gameState` object is modelled by the `GameState` structure
(the presentation-only fields `uiState` and `startTime` are omitted), and
each DOM `displayFeedback` call at a decision point of `processGuess` is
reflected as an `Outcome` value returned next to the updated state.
-/

/-- One code point of the ASCII simple lower-case mapping used by
`input.toLowerCase()` on the inputs this game deals with. -/
def lowerCp (c : Nat) : Nat :=
  if 65 ≤ c ∧ c ≤ 90 then c + 32 else c

/-- ECMAScript WhiteSpace and LineTerminator code points, the set removed by
`String.prototype.trim`. -/
def isWs (c : Nat) : Bool :=
  c == 9 || c == 10 || c == 11 || c == 12 || c == 13 || c == 32 ||
  c == 160 || c == 5760 || (8192 ≤ c && c ≤ 8202) || c == 8232 ||
  c == 8233 || c == 8239 || c == 8287 || c == 12288 || c == 65279

/-- Model of `s.toLowerCase()`. -/
def jsToLower (s : List Nat) : List Nat :=
  s.map lowerCp

/-- Model of `s.trim()`: remove leading and trailing whitespace. -/
def jsTrim (s : List Nat) : List Nat :=
  ((s.dropWhile isWs).reverse.dropWhile isWs).reverse

/-- Function `normalizeInput` from `js/game.js`: `input.toLowerCase().trim()`. -/
def normalizeInput (input : List Nat) : List Nat :=
  jsTrim (jsToLower input)

/-- Function `validateAnswer` from `js/game.js`:
`acceptedAnswers.some(answer => normalizeInput(answer) === normalized)`. -/
def validateAnswer (playerInput : List Nat) (acceptedAnswers : List (List Nat)) : Bool :=
  let normalized := normalizeInput playerInput
  acceptedAnswers.any (fun answer => normalizeInput answer == normalized)

/-- A puzzle record from `data/puzzles.json`. -/
structure Puzzle where
  id : Nat
  category : List Nat
  clues : List (List Nat)
  acceptedAnswers : List (List Nat)
deriving DecidableEq

/-- The session status strings of `gameState.status`. -/
inductive Status where
  | playing
  | won
  | lost
deriving DecidableEq

/-- The mutable `gameState` object (presentation fields omitted). -/
structure GameState where
  puzzles : List Puzzle
  currentPuzzleId : Nat
  revealedCluesCount : Nat
  guesses : List (List Nat)
  status : Status
deriving DecidableEq

/-- Function `getCurrentPuzzle`: `gameState.puzzles.find(p => p.id === gameState.currentPuzzleId)`;
`none` models the JavaScript `undefined` result. -/
def getCurrentPuzzle (st : GameState) : Option Puzzle :=
  st.puzzles.find? (fun p => p.id == st.currentPuzzleId)

/-- Function `getRevealedClues`: first `revealedCluesCount` clues of the current puzzle
(the guarded variant returns `[]` when no puzzle matches). -/
def getRevealedClues (st : GameState) : List (List Nat) :=
  match getCurrentPuzzle st with
  | none => []
  | some puzzle => puzzle.clues.take st.revealedCluesCount

/-- Function `initGame(puzzleId)`: unconditionally reset the session fields.  The
source performs no repository lookup here. -/
def initGame (st : GameState) (puzzleId : Nat) : GameState :=
  { st with
    currentPuzzleId := puzzleId
    revealedCluesCount := 1
    guesses := []
    status := Status.playing }

/-- The observable outcome of one `processGuess` call: which feedback branch
ran.  `crash` models the `TypeError` thrown when `puzzle` is `undefined` and
`puzzle.acceptedAnswers` is read. -/
inductive Outcome where
  | invalidInput
  | ignored
  | won (category : List Nat)
  | lost (category : List Nat)
  | clueRevealed (revealedCluesCount : Nat)
  | tryAgain
  | crash
deriving DecidableEq

/-- Function `processGuess(guess)` from `js/game.js`, returning the updated state and
the feedback branch taken.  The branch order mirrors the source: the
empty-input check runs before the terminal-status check; the guess is pushed
before `validateAnswer` is called. -/
def processGuess (st : GameState) (guess : List Nat) : GameState × Outcome :=
  if jsTrim guess = [] then
    (st, Outcome.invalidInput)
  else if st.status ≠ Status.playing then
    (st, Outcome.ignored)
  else
    match getCurrentPuzzle st with
    | none => ({ st with guesses := st.guesses ++ [guess] }, Outcome.crash)
    | some puzzle =>
      let st1 := { st with guesses := st.guesses ++ [guess] }
      if validateAnswer guess puzzle.acceptedAnswers then
        ({ st1 with status := Status.won }, Outcome.won puzzle.category)
      else if 5 ≤ st1.guesses.length then
        ({ st1 with status := Status.lost }, Outcome.lost puzzle.category)
      else if st1.revealedCluesCount < 5 then
        ({ st1 with revealedCluesCount := st1.revealedCluesCount + 1 },
          Outcome.clueRevealed (st1.revealedCluesCount + 1))
      else
        (st1, Outcome.tryAgain)

/-- Result of pressing "Next Puzzle" in the variant that ends with a
completion screen. -/
inductive NextAction where
  | started (st : GameState)
  | completedScreen
deriving DecidableEq

/-- Function `handleNextPuzzle` (first variant): advance when
`nextPuzzleId <= gameState.puzzles.length`, else show the completion screen. -/
def handleNextPuzzleV1 (st : GameState) : NextAction :=
  let nextPuzzleId := st.currentPuzzleId + 1
  if nextPuzzleId ≤ st.puzzles.length then
    NextAction.started (initGame st nextPuzzleId)
  else
    NextAction.completedScreen

/-- Function `handleNextPuzzle` (second variant): advance when
`nextPuzzleId <= gameState.puzzles.length`, else loop back to puzzle 1. -/
def handleNextPuzzleV2 (st : GameState) : GameState :=
  let nextPuzzleId := st.currentPuzzleId + 1
  if nextPuzzleId ≤ st.puzzles.length then
    initGame st nextPuzzleId
  else
    initGame st 1

/-- Session states reachable by starting on a puzzle id present in the
repository and then submitting any sequence of guesses. -/
inductive Reachable : GameState → Prop where
  | init (st : GameState) (pid : Nat) (hp : ∃ p ∈ st.puzzles, p.id = pid) :
      Reachable (initGame st pid)
  | step (st : GameState) (g : List Nat) (hr : Reachable st) :
      Reachable (processGuess st g).1

/-- Code points of a string literal, for concrete test inputs. -/
def str (s : String) : List Nat :=
  s.data.map Char.toNat

/-- A concrete puzzle, shaped like Scenario A of the design document. -/
def pzFruits : Puzzle :=
  { id := 1
    category := str "fruits"
    clues := [str "apple", str "banana", str "cherry", str "mango", str "plum"]
    acceptedAnswers := [str "fruits", str "fruit"] }

/-- A freshly started session on `pzFruits`. -/
def stStart : GameState :=
  { puzzles := [pzFruits]
    currentPuzzleId := 1
    revealedCluesCount := 1
    guesses := []
    status := Status.playing }

/-- A session on `pzFruits` already won with one recorded guess. -/
def stWonEx : GameState :=
  { stStart with status := Status.won, guesses := [str "fruit"] }

/-- A session on `pzFruits` with four wrong guesses and all clues revealed. -/
def stFourWrong : GameState :=
  { stStart with
    revealedCluesCount := 5
    guesses := [str "cars", str "tools", str "cities", str "rivers"] }

/-! ### Facts about the normalization primitives -/

lemma lowerCp_lowerCp (c : Nat) : lowerCp (lowerCp c) = lowerCp c := by
  unfold lowerCp
  split_ifs <;> omega

lemma isWs_iff (c : Nat) :
    isWs c = true ↔
      (c = 9 ∨ c = 10 ∨ c = 11 ∨ c = 12 ∨ c = 13 ∨ c = 32 ∨ c = 160 ∨
       c = 5760 ∨ (8192 ≤ c ∧ c ≤ 8202) ∨ c = 8232 ∨ c = 8233 ∨ c = 8239 ∨
       c = 8287 ∨ c = 12288 ∨ c = 65279) := by
  simp only [isWs, Bool.or_eq_true, Bool.and_eq_true, beq_iff_eq, decide_eq_true_eq]
  tauto

lemma isWs_eq_false_of (c : Nat) (h1 : 65 ≤ c) (h2 : c ≤ 122) : isWs c = false := by
  rw [Bool.eq_false_iff]
  intro h
  rw [isWs_iff] at h
  omega

lemma isWs_lowerCp (c : Nat) : isWs (lowerCp c) = isWs c := by
  unfold lowerCp
  split_ifs with h
  · rw [isWs_eq_false_of (c + 32) (by omega) (by omega),
      isWs_eq_false_of c (by omega) (by omega)]
  · rfl

lemma dropWhile_app_ws (w l : List Nat) (hw : ∀ c ∈ w, isWs c = true) :
    (w ++ l).dropWhile isWs = l.dropWhile isWs := by
  induction w with
  | nil => rfl
  | cons a w ih =>
    have ha : isWs a = true := hw a (List.mem_cons_self _ _)
    simp only [List.cons_append, List.dropWhile_cons, ha, if_true]
    exact ih (fun c hc => hw c (List.mem_cons_of_mem _ hc))

lemma dropWhile_dropWhile (p : Nat → Bool) (l : List Nat) :
    (l.dropWhile p).dropWhile p = l.dropWhile p := by
  induction l with
  | nil => rfl
  | cons a l ih =>
    cases hpa : p a with
    | true => simp [List.dropWhile_cons, hpa, ih]
    | false => simp [List.dropWhile_cons, hpa]

lemma dropWhile_head_false (p : Nat → Bool) (l : List Nat) (a : Nat) (t : List Nat)
    (h : l.dropWhile p = a :: t) : p a = false := by
  induction l with
  | nil => simp [List.dropWhile] at h
  | cons b l ih =>
    cases hpb : p b with
    | true =>
      rw [List.dropWhile_cons, hpb, if_pos rfl] at h
      exact ih h
    | false =>
      rw [List.dropWhile_cons, hpb] at h
      simp only [Bool.false_eq_true, if_false] at h
      cases h
      exact hpb

lemma trim_decomp (l : List Nat) :
    jsTrim l ++ ((l.dropWhile isWs).reverse.takeWhile isWs).reverse = l.dropWhile isWs := by
  unfold jsTrim
  rw [← List.reverse_append, List.takeWhile_append_dropWhile, List.reverse_reverse]

lemma jsTrim_no_leading_ws (l : List Nat) : (jsTrim l).dropWhile isWs = jsTrim l := by
  cases he : jsTrim l with
  | nil => rfl
  | cons a t =>
    have h1 := trim_decomp l
    rw [he, List.cons_append] at h1
    have ha : isWs a = false := dropWhile_head_false isWs l a _ h1.symm
    simp [List.dropWhile_cons, ha]

lemma trim_idem (l : List Nat) : jsTrim (jsTrim l) = jsTrim l := by
  show (((jsTrim l).dropWhile isWs).reverse.dropWhile isWs).reverse = jsTrim l
  rw [jsTrim_no_leading_ws]
  have hrev : (jsTrim l).reverse = (l.dropWhile isWs).reverse.dropWhile isWs := by
    unfold jsTrim
    rw [List.reverse_reverse]
  rw [hrev, dropWhile_dropWhile]
  rfl

lemma trim_pad (w1 w2 x : List Nat) (h1 : ∀ c ∈ w1, isWs c = true)
    (h2 : ∀ c ∈ w2, isWs c = true) :
    jsTrim (w1 ++ x ++ w2) = jsTrim x := by
  unfold jsTrim
  rw [List.append_assoc, dropWhile_app_ws w1 _ h1]
  by_cases hx : x.dropWhile isWs = []
  · have hxw : ∀ c ∈ x, isWs c = true := List.dropWhile_eq_nil_iff.mp hx
    have hall : (x ++ w2).dropWhile isWs = [] := by
      rw [List.dropWhile_eq_nil_iff]
      intro c hc
      rcases List.mem_append.mp hc with h | h
      · exact hxw c h
      · exact h2 c h
    rw [hall, hx]
  · rw [List.dropWhile_append]
    have hne : (x.dropWhile isWs).isEmpty = false := by
      cases hxd : x.dropWhile isWs with
      | nil => exact absurd hxd hx
      | cons a t => rfl
    simp only [hne, Bool.false_eq_true, if_false]
    rw [List.reverse_append,
      dropWhile_app_ws w2.reverse _ (fun c hc => h2 c (List.mem_reverse.mp hc))]

lemma trim_eq_nil (l : List Nat) : jsTrim l = [] ↔ ∀ c ∈ l, isWs c = true := by
  unfold jsTrim
  rw [List.reverse_eq_nil_iff, List.dropWhile_eq_nil_iff]
  constructor
  · intro h c hc
    rw [← List.takeWhile_append_dropWhile isWs l] at hc
    rcases List.mem_append.mp hc with h1 | h2
    · exact List.mem_takeWhile_imp h1
    · exact h c (List.mem_reverse.mpr h2)
  · intro h c hc
    exact h c ((List.dropWhile_sublist isWs).subset (List.mem_reverse.mp hc))

lemma map_lower_dropWhile (l : List Nat) :
    (l.dropWhile isWs).map lowerCp = (l.map lowerCp).dropWhile isWs := by
  have hp : isWs ∘ lowerCp = isWs := funext (fun c => isWs_lowerCp c)
  rw [List.dropWhile_map, hp]

lemma jsToLower_jsTrim (l : List Nat) : jsToLower (jsTrim l) = jsTrim (jsToLower l) := by
  unfold jsToLower jsTrim
  rw [List.map_reverse, map_lower_dropWhile, List.map_reverse, map_lower_dropWhile]

lemma jsToLower_jsToLower (l : List Nat) : jsToLower (jsToLower l) = jsToLower l := by
  unfold jsToLower
  rw [List.map_map]
  congr 1
  funext c
  exact lowerCp_lowerCp c

lemma normalize_eq_nil (g : List Nat) : normalizeInput g = [] ↔ jsTrim g = [] := by
  unfold normalizeInput jsToLower
  rw [trim_eq_nil, trim_eq_nil]
  constructor
  · intro h c hc
    have := h (lowerCp c) (List.mem_map_of_mem _ hc)
    rwa [isWs_lowerCp] at this
  · intro h c hc
    rcases List.mem_map.mp hc with ⟨a, ha, rfl⟩
    rw [isWs_lowerCp]
    exact h a ha

/-! ### Branch lemmas for `processGuess` -/

lemma processGuess_empty (st : GameState) (g : List Nat) (he : jsTrim g = []) :
    processGuess st g = (st, Outcome.invalidInput) := by
  unfold processGuess
  rw [if_pos he]

lemma processGuess_terminal (st : GameState) (g : List Nat)
    (he : jsTrim g ≠ []) (hst : st.status ≠ Status.playing) :
    processGuess st g = (st, Outcome.ignored) := by
  unfold processGuess
  rw [if_neg he, if_pos hst]

lemma processGuess_crash (st : GameState) (g : List Nat)
    (he : jsTrim g ≠ []) (hst : st.status = Status.playing)
    (hp : getCurrentPuzzle st = none) :
    processGuess st g = ({ st with guesses := st.guesses ++ [g] }, Outcome.crash) := by
  unfold processGuess
  rw [if_neg he, if_neg (fun hcon => hcon hst), hp]

lemma processGuess_correct (st : GameState) (g : List Nat) (p : Puzzle)
    (he : jsTrim g ≠ []) (hst : st.status = Status.playing)
    (hp : getCurrentPuzzle st = some p)
    (hv : validateAnswer g p.acceptedAnswers = true) :
    processGuess st g =
      ({ st with guesses := st.guesses ++ [g], status := Status.won },
        Outcome.won p.category) := by
  unfold processGuess
  rw [if_neg he, if_neg (fun hcon => hcon hst), hp]
  simp only [hv, if_true]

lemma processGuess_exhausted (st : GameState) (g : List Nat) (p : Puzzle)
    (he : jsTrim g ≠ []) (hst : st.status = Status.playing)
    (hp : getCurrentPuzzle st = some p)
    (hv : validateAnswer g p.acceptedAnswers = false)
    (hlen : 4 ≤ st.guesses.length) :
    processGuess st g =
      ({ st with guesses := st.guesses ++ [g], status := Status.lost },
        Outcome.lost p.category) := by
  unfold processGuess
  rw [if_neg he, if_neg (fun hcon => hcon hst), hp]
  simp only [hv, Bool.false_eq_true, if_false, List.length_append, List.length_cons,
    List.length_nil]
  rw [if_pos (by omega)]

lemma processGuess_reveal (st : GameState) (g : List Nat) (p : Puzzle)
    (he : jsTrim g ≠ []) (hst : st.status = Status.playing)
    (hp : getCurrentPuzzle st = some p)
    (hv : validateAnswer g p.acceptedAnswers = false)
    (hlen : st.guesses.length < 4) (hrc : st.revealedCluesCount < 5) :
    processGuess st g =
      ({ st with guesses := st.guesses ++ [g], revealedCluesCount := st.revealedCluesCount + 1 },
        Outcome.clueRevealed (st.revealedCluesCount + 1)) := by
  unfold processGuess
  rw [if_neg he, if_neg (fun hcon => hcon hst), hp]
  simp only [hv, Bool.false_eq_true, if_false, List.length_append, List.length_cons,
    List.length_nil]
  rw [if_neg (by omega), if_pos hrc]

lemma processGuess_stuck (st : GameState) (g : List Nat) (p : Puzzle)
    (he : jsTrim g ≠ []) (hst : st.status = Status.playing)
    (hp : getCurrentPuzzle st = some p)
    (hv : validateAnswer g p.acceptedAnswers = false)
    (hlen : st.guesses.length < 4) (hrc : ¬ st.revealedCluesCount < 5) :
    processGuess st g =
      ({ st with guesses := st.guesses ++ [g] }, Outcome.tryAgain) := by
  unfold processGuess
  rw [if_neg he, if_neg (fun hcon => hcon hst), hp]
  simp only [hv, Bool.false_eq_true, if_false, List.length_append, List.length_cons,
    List.length_nil]
  rw [if_neg (by omega), if_neg hrc]

/-- Invariant maintained by every reachable session state: the current puzzle
exists, the revealed-clue counter stays within [1,5], and while the session is
still being played the counter is one more than the number of recorded
guesses. -/
lemma reachable_invariant (st : GameState) (h : Reachable st) :
    (getCurrentPuzzle st).isSome = true ∧
    1 ≤ st.revealedCluesCount ∧ st.revealedCluesCount ≤ 5 ∧
    (st.status = Status.playing → st.revealedCluesCount = st.guesses.length + 1) := by
  induction h with
  | init st pid hp =>
    refine ⟨?_, Nat.le_refl 1, ?_, fun _ => rfl⟩
    · obtain ⟨p, hmem, hid⟩ := hp
      exact List.find?_isSome.mpr ⟨p, hmem, by simp [initGame, hid]⟩
    · show (1 : Nat) ≤ 5
      decide
  | step st g hr ih =>
    obtain ⟨hpz, h1, h5, hpl⟩ := ih
    by_cases he : jsTrim g = []
    · rw [processGuess_empty st g he]
      exact ⟨hpz, h1, h5, hpl⟩
    · by_cases hterm : st.status ≠ Status.playing
      · rw [processGuess_terminal st g he hterm]
        exact ⟨hpz, h1, h5, hpl⟩
      · have hst : st.status = Status.playing := not_ne_iff.mp hterm
        obtain ⟨p, hp⟩ := Option.isSome_iff_exists.mp hpz
        by_cases hv : validateAnswer g p.acceptedAnswers = true
        · rw [processGuess_correct st g p he hst hp hv]
          exact ⟨hpz, h1, h5, fun hcon => nomatch hcon⟩
        · have hv' : validateAnswer g p.acceptedAnswers = false := Bool.eq_false_iff.mpr hv
          by_cases hlen : 4 ≤ st.guesses.length
          · rw [processGuess_exhausted st g p he hst hp hv' hlen]
            exact ⟨hpz, h1, h5, fun hcon => nomatch hcon⟩
          · have hlen' : st.guesses.length < 4 := by omega
            have hcount := hpl hst
            by_cases hrc : st.revealedCluesCount < 5
            · rw [processGuess_reveal st g p he hst hp hv' hlen' hrc]
              refine ⟨hpz, ?_, ?_, fun _ => ?_⟩
              · show 1 ≤ st.revealedCluesCount + 1
                omega
              · show st.revealedCluesCount + 1 ≤ 5
                omega
              · show st.revealedCluesCount + 1 = (st.guesses ++ [g]).length + 1
                simp only [List.length_append, List.length_cons, List.length_nil]
                omega
            · exact absurd hcount (by omega)

/-- The state `stStart` itself arises from `initGame` on the present puzzle id 1. -/
lemma reachable_stStart : Reachable stStart := by
  have h := Reachable.init stStart 1 ⟨pzFruits, by decide, rfl⟩
  have heq : initGame stStart 1 = stStart := rfl
  rwa [heq] at h

/-- C7: In every session: `start` sets `revealedCluesCount` to 1, each
`submitGuess` leaves it unchanged or increments it by exactly 1 and only when
it is strictly below 5, and in every reachable state it stays in [1,5]. -/
theorem c7_revealed_clues_bounds :
    (∀ (st : GameState) (pid : Nat), (initGame st pid).revealedCluesCount = 1) ∧
    (∀ (st : GameState) (g : List Nat),
      (processGuess st g).1.revealedCluesCount = st.revealedCluesCount ∨
      (st.revealedCluesCount < 5 ∧
        (processGuess st g).1.revealedCluesCount = st.revealedCluesCount + 1)) ∧
    (∀ st : GameState, Reachable st →
      1 ≤ st.revealedCluesCount ∧ st.revealedCluesCount ≤ 5) := by
  refine ⟨fun st pid => rfl, fun st g => ?_,
    fun st h => ⟨(reachable_invariant st h).2.1, (reachable_invariant st h).2.2.1⟩⟩
  by_cases he : jsTrim g = []
  · rw [processGuess_empty st g he]
    exact Or.inl rfl
  · by_cases hterm : st.status ≠ Status.playing
    · rw [processGuess_terminal st g he hterm]
      exact Or.inl rfl
    · have hst : st.status = Status.playing := not_ne_iff.mp hterm
      cases hp : getCurrentPuzzle st with
      | none =>
        rw [processGuess_crash st g he hst hp]
        exact Or.inl rfl
      | some p =>
        by_cases hv : validateAnswer g p.acceptedAnswers = true
        · rw [processGuess_correct st g p he hst hp hv]
          exact Or.inl rfl
        · have hv' : validateAnswer g p.acceptedAnswers = false := Bool.eq_false_iff.mpr hv
          by_cases hlen : 4 ≤ st.guesses.length
          · rw [processGuess_exhausted st g p he hst hp hv' hlen]
            exact Or.inl rfl
          · have hlen' : st.guesses.length < 4 := by omega
            by_cases hrc : st.revealedCluesCount < 5
            · rw [processGuess_reveal st g p he hst hp hv' hlen' hrc]
              exact Or.inr ⟨hrc, rfl⟩
            · rw [processGuess_stuck st g p he hst hp hv' hlen' hrc]
              exact Or.inl rfl

/-- Witness for C7: the bounds hold at the concrete reachable state `stStart`. -/
theorem c7_witness : 1 ≤ stStart.revealedCluesCount ∧ stStart.revealedCluesCount ≤ 5 :=
  c7_revealed_clues_bounds.2.2 stStart reachable_stStart

/-- C10: In every reachable session state that is still `playing`,
`revealedCluesCount = guesses.length + 1`. -/
theorem c10_playing_clue_guess_relation (st : GameState) (h : Reachable st)
    (hst : st.status = Status.playing) :
    st.revealedCluesCount = st.guesses.length + 1 :=
  (reachable_invariant st h).2.2.2 hst

/-- Witness for C10 at the concrete reachable state `stStart`. -/
theorem c10_witness : stStart.revealedCluesCount = stStart.guesses.length + 1 :=
  c10_playing_clue_guess_relation stStart reachable_stStart rfl

/-- C2: In a `playing` session, an incorrect non-empty guess that brings
the recorded guess count to at least 5 sets the status to `lost`, regardless
of `revealedCluesCount`, and the outcome reports the loss with the puzzle's
category. -/
theorem c2_five_wrong_guesses_lose (st : GameState) (g : List Nat) (p : Puzzle)
    (hst : st.status = Status.playing)
    (hp : getCurrentPuzzle st = some p)
    (he : jsTrim g ≠ [])
    (hv : validateAnswer g p.acceptedAnswers = false)
    (hlen : 4 ≤ st.guesses.length) :
    processGuess st g =
      ({ st with guesses := st.guesses ++ [g], status := Status.lost },
        Outcome.lost p.category) :=
  processGuess_exhausted st g p he hst hp hv hlen

/-- Witness for C2: the fifth wrong guess on `stFourWrong` loses. -/
theorem c2_witness :
    processGuess stFourWrong (str "spices") =
      ({ stFourWrong with
          guesses := stFourWrong.guesses ++ [str "spices"]
          status := Status.lost },
        Outcome.lost pzFruits.category) :=
  c2_five_wrong_guesses_lose stFourWrong (str "spices") pzFruits rfl (by decide)
    (by decide) (by decide) (by decide)

/-- C3: In a `playing` session, a non-empty correct guess immediately sets
the status to `won`, leaves `revealedCluesCount` unchanged, and appends the
winning guess to `guesses`, on any attempt. -/
theorem c3_correct_guess_wins (st : GameState) (g : List Nat) (p : Puzzle)
    (hst : st.status = Status.playing)
    (hp : getCurrentPuzzle st = some p)
    (he : jsTrim g ≠ [])
    (hv : validateAnswer g p.acceptedAnswers = true) :
    processGuess st g =
      ({ st with guesses := st.guesses ++ [g], status := Status.won },
        Outcome.won p.category) :=
  processGuess_correct st g p he hst hp hv

/-- Witness for C3: a correct guess on the fifth attempt still wins. -/
theorem c3_witness :
    processGuess stFourWrong (str "Fruit") =
      ({ stFourWrong with
          guesses := stFourWrong.guesses ++ [str "Fruit"]
          status := Status.won },
        Outcome.won pzFruits.category) :=
  c3_correct_guess_wins stFourWrong (str "Fruit") pzFruits rfl (by decide)
    (by decide) (by decide)

/-- C4: A guess whose normalized form is empty is rejected with the
invalid-input error and the whole session state is left unchanged. -/
theorem c4_empty_input_rejected (st : GameState) (g : List Nat)
    (h : normalizeInput g = []) :
    processGuess st g = (st, Outcome.invalidInput) :=
  processGuess_empty st g ((trim_eq_nil g).mpr
    (fun c hc => by
      have := (normalize_eq_nil g).mp h
      exact (trim_eq_nil g).mp this c hc))

/-- Witness for C4: a whitespace-only guess is rejected and changes nothing. -/
theorem c4_witness :
    processGuess stStart (str " \t ") = (stStart, Outcome.invalidInput) :=
  c4_empty_input_rejected stStart (str " \t ") (by decide)

/-- C5 counterexample: `initGame` on the absent puzzle id 999 mutates the
session instead of failing with `NotFoundError` and leaving it unchanged. -/
theorem c5_counterexample :
    initGame stWonEx 999 ≠ stWonEx ∧ (initGame stWonEx 999).currentPuzzleId = 999 := by
  exact ⟨by decide, rfl⟩

/-- C5 (amended): the function `initGame(puzzleId)` performs no repository lookup: for
every id, present or absent, it unconditionally resets the session to the new
id; when the id is absent no error is signalled and `getCurrentPuzzle` on the
reset session finds nothing. -/
theorem c5_initGame_no_lookup (st : GameState) (puzzleId : Nat) :
    initGame st puzzleId =
      { st with
          currentPuzzleId := puzzleId
          revealedCluesCount := 1
          guesses := []
          status := Status.playing } ∧
    ((∀ p ∈ st.puzzles, p.id ≠ puzzleId) →
      getCurrentPuzzle (initGame st puzzleId) = none) := by
  refine ⟨rfl, fun h => ?_⟩
  unfold getCurrentPuzzle initGame
  rw [List.find?_eq_none]
  intro p hp
  simp only [beq_iff_eq]
  exact h p hp

/-- Witness for C5 (amended): starting on the absent id 999 resets the
session and leaves it without a current puzzle. -/
theorem c5_witness : getCurrentPuzzle (initGame stStart 999) = none :=
  (c5_initGame_no_lookup stStart 999).2 (by decide)

/-- C6 counterexample: in a terminal session an empty guess is *not* silently
ignored — the empty-input error branch runs first and reports it. -/
theorem c6_counterexample :
    (processGuess stWonEx (str "  ")).2 = Outcome.invalidInput := by
  decide

/-- C6 (amended): In a terminal session, a guess that is non-empty after
trimming is silently ignored with the state unchanged; an empty or
whitespace-only guess instead hits the empty-input check first and reports
the invalid-input error, also leaving the state unchanged. -/
theorem c6_terminal_guesses (st : GameState) (g : List Nat)
    (hterm : st.status ≠ Status.playing) :
    (jsTrim g ≠ [] → processGuess st g = (st, Outcome.ignored)) ∧
    (jsTrim g = [] → processGuess st g = (st, Outcome.invalidInput)) :=
  ⟨fun he => processGuess_terminal st g he hterm,
   fun he => processGuess_empty st g he⟩

/-- Witness for C6 (amended): a late non-empty guess on a won session is
ignored without touching the state. -/
theorem c6_witness :
    processGuess stWonEx (str "late guess") = (stWonEx, Outcome.ignored) :=
  (c6_terminal_guesses stWonEx (str "late guess") (by decide)).1 (by decide)

/-- C9: Normalization is idempotent: normalizing an already-normalized
string returns it unchanged. -/
theorem c9_normalize_idempotent (s : List Nat) :
    normalizeInput (normalizeInput s) = normalizeInput s := by
  unfold normalizeInput
  rw [jsToLower_jsTrim, jsToLower_jsToLower, trim_idem]

/-- C1: A guess is judged correct exactly when its normalized form equals
the normalized form of some accepted answer (no fuzzy or partial matching);
in particular every casing / leading-or-trailing-whitespace variant of an
accepted answer is judged correct. -/
theorem c1_exact_match_after_normalization (acceptedAnswers : List (List Nat))
    (playerInput : List Nat) :
    (validateAnswer playerInput acceptedAnswers = true ↔
      ∃ a ∈ acceptedAnswers, normalizeInput a = normalizeInput playerInput) ∧
    (∀ a ∈ acceptedAnswers, ∀ w1 w2 v : List Nat,
      (∀ c ∈ w1, isWs c = true) → (∀ c ∈ w2, isWs c = true) →
      jsToLower v = jsToLower a →
      validateAnswer (w1 ++ v ++ w2) acceptedAnswers = true) := by
  constructor
  · unfold validateAnswer
    rw [List.any_eq_true]
    constructor
    · rintro ⟨a, ha, hb⟩
      exact ⟨a, ha, by simpa using hb⟩
    · rintro ⟨a, ha, hb⟩
      exact ⟨a, ha, by simpa using hb⟩
  · intro a ha w1 w2 v hw1 hw2 hv
    have hws1 : ∀ c ∈ w1.map lowerCp, isWs c = true := by
      intro c hc
      rcases List.mem_map.mp hc with ⟨b, hb, rfl⟩
      rw [isWs_lowerCp]
      exact hw1 b hb
    have hws2 : ∀ c ∈ w2.map lowerCp, isWs c = true := by
      intro c hc
      rcases List.mem_map.mp hc with ⟨b, hb, rfl⟩
      rw [isWs_lowerCp]
      exact hw2 b hb
    have hvl : v.map lowerCp = a.map lowerCp := hv
    have hnorm : normalizeInput (w1 ++ v ++ w2) = normalizeInput a := by
      show jsTrim ((w1 ++ v ++ w2).map lowerCp) = jsTrim (a.map lowerCp)
      rw [List.map_append, List.map_append,
        trim_pad (w1.map lowerCp) (w2.map lowerCp) (v.map lowerCp) hws1 hws2, hvl]
    unfold validateAnswer
    rw [List.any_eq_true]
    refine ⟨a, ha, ?_⟩
    rw [hnorm]
    simp

/-- Witness for C1: an upper-case variant of the accepted answer "fruit",
padded with a space and a tab, is judged correct. -/
theorem c1_witness :
    validateAnswer ([32] ++ str "FRUIT" ++ [9]) [str "fruits", str "fruit"] = true :=
  (c1_exact_match_after_normalization [str "fruits", str "fruit"]
      ([32] ++ str "FRUIT" ++ [9])).2
    (str "fruit") (by decide) [32] [9] (str "FRUIT") (by decide) (by decide) (by decide)

/-- C8 counterexample: with a single puzzle and `currentPuzzleId = 1`, the
completion-screen variant of `handleNextPuzzle` does not wrap to the first
puzzle id; it shows the completion screen instead. -/
theorem c8_counterexample :
    handleNextPuzzleV1 stWonEx = NextAction.completedScreen ∧
    handleNextPuzzleV1 stWonEx ≠ NextAction.started (initGame stWonEx 1) :=
  ⟨rfl, by decide⟩

/-- C8 (amended): Both variants advance exactly when
`currentPuzzleId + 1 ≤ puzzles.length`.  When the dataset assigns id `i + 1`
to the puzzle at index `i` (dense 1-based ids) this guard coincides with the
existence of a puzzle with id `currentPuzzleId + 1`; the looping variant then
starts that puzzle and otherwise wraps to puzzle id 1, which exists whenever
the repository is non-empty, while the completion-screen variant ends the
run instead of wrapping. -/
theorem c8_next_puzzle (st : GameState)
    (hdense : ∀ i : Nat, ∀ h : i < st.puzzles.length, (st.puzzles.get ⟨i, h⟩).id = i + 1)
    (hne : 1 ≤ st.puzzles.length) :
    (st.currentPuzzleId + 1 ≤ st.puzzles.length →
      handleNextPuzzleV2 st = initGame st (st.currentPuzzleId + 1) ∧
      handleNextPuzzleV1 st = NextAction.started (initGame st (st.currentPuzzleId + 1)) ∧
      (∃ p ∈ st.puzzles, p.id = st.currentPuzzleId + 1)) ∧
    (st.puzzles.length < st.currentPuzzleId + 1 →
      handleNextPuzzleV2 st = initGame st 1 ∧
      handleNextPuzzleV1 st = NextAction.completedScreen ∧
      (∃ p ∈ st.puzzles, p.id = 1) ∧
      (∀ p ∈ st.puzzles, p.id ≠ st.currentPuzzleId + 1)) := by
  constructor
  · intro hle
    refine ⟨?_, ?_, ?_⟩
    · unfold handleNextPuzzleV2
      rw [if_pos hle]
    · unfold handleNextPuzzleV1
      rw [if_pos hle]
    · have hidx : st.currentPuzzleId < st.puzzles.length := by omega
      exact ⟨st.puzzles.get ⟨st.currentPuzzleId, hidx⟩,
        List.get_mem st.puzzles st.currentPuzzleId hidx,
        hdense st.currentPuzzleId hidx⟩
  · intro hgt
    have hnle : ¬ st.currentPuzzleId + 1 ≤ st.puzzles.length := by omega
    refine ⟨?_, ?_, ?_, ?_⟩
    · unfold handleNextPuzzleV2
      rw [if_neg hnle]
    · unfold handleNextPuzzleV1
      rw [if_neg hnle]
    · have h0 : 0 < st.puzzles.length := by omega
      exact ⟨st.puzzles.get ⟨0, h0⟩, List.get_mem st.puzzles 0 h0, hdense 0 h0⟩
    · intro p hp hid
      rcases List.mem_iff_get.mp hp with ⟨i, hget⟩
      have hd := hdense i.1 i.isLt
      rw [hget] at hd
      have hlt := i.isLt
      omega

/-- Witness for C8 (amended): with the single dense puzzle of `stWonEx`
exhausted, the looping variant restarts at puzzle 1 and the other variant
shows the completion screen. -/
theorem c8_witness :
    handleNextPuzzleV2 stWonEx = initGame stWonEx 1 ∧
    handleNextPuzzleV1 stWonEx = NextAction.completedScreen := by
  have h := (c8_next_puzzle stWonEx
    (fun i h => by
      have h1 : i < 1 := h
      have h0 : i = 0 := by omega
      subst h0
      rfl)
    (by decide)).2 (by decide)
  exact ⟨h.1, h.2.1⟩
